import Mathlib

set_option maxHeartbeats 1000000
set_option maxRecDepth 4000

/-!
Shallow embedding of the pool-graph core of the solana-mev-bot repository
(src/graph.rs, client/src/decoders/orca_decoder.rs,
client/src/transaction_decoders/meteora_v3.rs), together with proofs about
its documented properties.

Modelling conventions:
* Addresses (Rust `Pubkey`) are abstracted to natural numbers through an
  injective base58-parse abstraction: records carry addresses already in
  parsed form, so string-level and key-level identity coincide.  Fields that
  the pool validator (`PoolInfo::check`) requires to be present are modelled
  as present; `unwrap` panics on absent fields are exercised by no claim.
* Rust `HashMap` becomes an association list whose lookup finds the first
  binding; `HashSet<usize>` becomes a duplicate-free `List Nat` with
  order-preserving insertion.  Iteration order of a Rust `HashSet` is
  unspecified; every concrete evaluation below has an
  iteration-order-independent result.
* `usize` indices are `Nat`; `usize::MAX` is `usize_max`.
* The Rust panics inside `dfs_recursive` (`self.adjacency[&node]` on a
  missing key, `.unwrap()` on `get_other_node`, fuel exhaustion that cannot
  occur at the fuel chosen by `build_cycles`) are modelled by `Option`:
  `none` marks a panic.  Out-of-range `Vec` indexing elsewhere is modelled
  by `getD` with a dummy value and is exercised by no claim.
-/

namespace MevBot

abbrev Addr := Nat

/-- Model of `usize::MAX`, the sentinel stored in `wsol_node` by `Graph::default`. -/
def usize_max : Nat := 2 ^ 64 - 1

/-- Abstract parsed form of the base token address
"So11111111111111111111111111111111111111112". -/
def WSOL_ADDRESS : Addr := 112

inductive DexType
  | Orca
  | Raydium
deriving DecidableEq

inductive PoolType
  | Standard
  | Concentrated
deriving DecidableEq

structure TokenInfo where
  address : Addr
  decimals : Nat
  name : Option String
  symbol : Option String
deriving DecidableEq

structure PoolInfo where
  address : Addr
  fee_rate : Nat
  pool_type : PoolType
  dex : DexType
  tick_spacing : Nat
  token_a : TokenInfo
  token_b : TokenInfo
  token_vault_a : Addr
  token_vault_b : Addr
  config : Addr
deriving DecidableEq

structure PoolUpdate where
  new_sqrt_price : Nat
  new_liquidity : Nat
  new_current_tick_index : Int
deriving DecidableEq

structure Node where
  address : Addr
  decimals : Nat
  name : String
  symbol : String
deriving DecidableEq

structure Edge where
  address : Addr
  fee_rate : Nat
  pool_type : PoolType
  dex : DexType
  tick_spacing : Nat
  token_vault_lowest : Addr
  token_vault_highest : Addr
  config : Addr
  node_lowest : Nat
  node_highest : Nat
  decimals_lowest : Nat
  decimals_highest : Nat
  reversed : Bool
  sqrt_price : Option Nat
  liquidity : Option Nat
  current_tick_index : Option Int
deriving DecidableEq

/-- Dummy edge used to model out-of-range `Vec<Edge>` indexing (a Rust panic);
never reached on the well-formed inputs the claims quantify over. -/
def dummy_edge : Edge :=
  { address := 0, fee_rate := 0, pool_type := .Standard, dex := .Orca, tick_spacing := 0,
    token_vault_lowest := 0, token_vault_highest := 0, config := 0,
    node_lowest := 0, node_highest := 0, decimals_lowest := 0, decimals_highest := 0,
    reversed := false, sqrt_price := none, liquidity := none, current_tick_index := none }

/-- Dummy node, companion of `dummy_edge`. -/
def dummy_node : Node := { address := 0, decimals := 0, name := "", symbol := "" }

structure Graph where
  wsol_address : Addr
  wsol_node : Nat
  nodes : List Node
  edges : List Edge
  address_to_node : List (Addr × Nat)
  address_to_edge : List (Addr × Nat)
  adjacency : List (Nat × List Nat)
  all_cycles : List (List Nat)
deriving DecidableEq

/-- First-binding lookup in an association list, the observable behaviour of
`HashMap::get`. -/
def alist_lookup {β : Type} : List (Nat × β) → Nat → Option β
  | [], _ => none
  | (k, v) :: rest, a => if k = a then some v else alist_lookup rest a

/-- Set-insertion into the `HashSet<Vec<usize>>` of cycles. -/
def set_insert (x : List Nat) (s : List (List Nat)) : List (List Nat) :=
  if x ∈ s then s else s ++ [x]

/-- Model of `self.adjacency.get_mut(&k).unwrap().insert(e)`: add edge id `e`
to the adjacency set of node `k` (no-op on the absent key that would panic in
Rust; every reachable call has the key present). -/
def adj_insert (adj : List (Nat × List Nat)) (k e : Nat) : List (Nat × List Nat) :=
  adj.map fun p => (p.1, if p.1 = k then (if e ∈ p.2 then p.2 else p.2 ++ [e]) else p.2)

/-- Model of `Edge::get_other_node`. -/
def Edge.get_other_node (e : Edge) (this_token : Nat) : Option Nat :=
  if this_token = e.node_lowest then some e.node_highest
  else if this_token = e.node_highest then some e.node_lowest
  else none

/-- Model of `Graph::default`. -/
def Graph.default : Graph where
  wsol_address := WSOL_ADDRESS
  wsol_node := usize_max
  nodes := []
  edges := []
  address_to_node := []
  address_to_edge := []
  adjacency := []
  all_cycles := []

/-- Model of `Graph::insert_node` (the base58 parse of the token address is
pre-applied; the parse-failure branch is exercised by no claim). -/
def Graph.insert_node (g : Graph) (token : TokenInfo) : Nat × Graph :=
  match alist_lookup g.address_to_node token.address with
  | some existing_index => (existing_index, g)
  | none =>
    let node : Node :=
      { address := token.address, decimals := token.decimals,
        name := token.name.getD "Empty Name", symbol := token.symbol.getD "Empty Symbol" }
    let index := g.nodes.length
    (index,
      { g with
        wsol_node := if token.address = g.wsol_address then index else g.wsol_node,
        nodes := g.nodes ++ [node],
        address_to_node := (token.address, index) :: g.address_to_node,
        adjacency := (index, []) :: g.adjacency })

/-- Model of `Graph::insert_edge`. -/
def Graph.insert_edge (g : Graph) (pool : PoolInfo) (node0_index node1_index : Nat) :
    Nat × Graph :=
  let (token_vault_lowest, token_vault_highest, idx_lowest, idx_highest, reversed) :=
    if node0_index < node1_index then
      (pool.token_vault_a, pool.token_vault_b, node0_index, node1_index, false)
    else
      (pool.token_vault_b, pool.token_vault_a, node1_index, node0_index, true)
  let edge : Edge :=
    { address := pool.address, fee_rate := pool.fee_rate, pool_type := pool.pool_type,
      dex := pool.dex, tick_spacing := pool.tick_spacing,
      token_vault_lowest := token_vault_lowest, token_vault_highest := token_vault_highest,
      config := pool.config, node_lowest := idx_lowest, node_highest := idx_highest,
      decimals_lowest := (g.nodes.getD idx_lowest dummy_node).decimals,
      decimals_highest := (g.nodes.getD idx_highest dummy_node).decimals,
      reversed := reversed, sqrt_price := none, liquidity := none,
      current_tick_index := none }
  let index := g.edges.length
  (index,
    { g with
      edges := g.edges ++ [edge],
      address_to_edge := (pool.address, index) :: g.address_to_edge,
      adjacency := adj_insert (adj_insert g.adjacency idx_lowest index) idx_highest index })

/-- Model of `Graph::insert_pool`. -/
def Graph.insert_pool (g : Graph) (pool : PoolInfo) : Graph :=
  let r0 := g.insert_node pool.token_a
  let r1 := r0.2.insert_node pool.token_b
  (r1.2.insert_edge pool r0.1 r1.1).2

/-- Folding `insert_pool` over a list of pools, as `build_graph` does per file. -/
def Graph.insert_pools (g : Graph) (pools : List PoolInfo) : Graph :=
  pools.foldl Graph.insert_pool g

/-- Folding `insert_node` over a list of tokens. -/
def Graph.insert_nodes (g : Graph) (tokens : List TokenInfo) : Graph :=
  tokens.foldl (fun g t => (g.insert_node t).2) g

/-- Model of `Graph::update_edge`.  The Bool is `true` on the `Ok(())` path;
`false` models the `EdgeNotFound` error, and the graph is returned unchanged
there, as the Rust mutation never happens. -/
def Graph.update_edge (g : Graph) (address : Addr) (data : PoolUpdate) : Bool × Graph :=
  match alist_lookup g.address_to_edge address with
  | some edge_index =>
    match g.edges.get? edge_index with
    | some edge =>
      (true,
        { g with
          edges := g.edges.set edge_index
            { edge with
              liquidity := some data.new_liquidity,
              sqrt_price := some data.new_sqrt_price,
              current_tick_index := some data.new_current_tick_index } })
    | none => (false, g)
  | none => (false, g)

/-- The traversal loop of `Graph::check_cycle`: walk the edge list starting at
`last_node`; return the first failing position (`Except.error`) or the final
node (`Except.ok`). -/
def walk_cycle (edges : List Edge) : List Nat → Nat → Nat → Except Nat Nat
  | [], last_node, _ => .ok last_node
  | pool :: rest, last_node, index =>
    match (edges.getD pool dummy_edge).get_other_node last_node with
    | some other_node => walk_cycle edges rest other_node (index + 1)
    | none => .error index

/-- Model of `Graph::check_cycle`.  Returns the `need_change` flag and the
(possibly rotated) cycle.  Note the source compares the final node with the
literal `0`, not with `wsol_node`. -/
def Graph.check_cycle (g : Graph) (cycle : List Nat) : Bool × List Nat :=
  let cycle_len := cycle.length
  match walk_cycle g.edges cycle g.wsol_node 0 with
  | .error problematic_edge_index =>
    (true,
      if 0 < problematic_edge_index ∧ problematic_edge_index < cycle_len then cycle.rotate 1
      else if problematic_edge_index = 0 then cycle.rotate (cycle_len - 1)
      else cycle)
  | .ok last_node =>
    if last_node ≠ 0 then
      (true,
        if 0 < cycle_len - 1 ∧ cycle_len - 1 < cycle_len then cycle.rotate 1
        else if cycle_len - 1 = 0 then cycle.rotate (cycle_len - 1)
        else cycle)
    else (false, cycle)

/-- Index of the first minimal element of a list, the behaviour of
`iter().enumerate().min_by_key(...)` in `Graph::canonicalize`. -/
def min_idx : List Nat → Nat
  | [] => 0
  | [_] => 0
  | a :: b :: rest =>
    if a ≤ (b :: rest).getD (min_idx (b :: rest)) 0 then 0 else min_idx (b :: rest) + 1

/-- Left rotation to the first minimal element, the `forward`/`reversed`
normalisation step of `Graph::canonicalize`. -/
def min_rot (l : List Nat) : List Nat := l.rotate (min_idx l)

/-- Lexicographic comparison of Rust `Vec<usize>` (`forward <= reversed`). -/
def lexLe : List Nat → List Nat → Bool
  | [], _ => true
  | _ :: _, [] => false
  | a :: as, b :: bs => if a < b then true else if b < a then false else lexLe as bs

/-- Model of `Graph::canonicalize`. -/
def Graph.canonicalize (cycle : List Nat) : List Nat :=
  if cycle.length = 0 then []
  else
    let forward := min_rot cycle
    let reversed := min_rot cycle.reverse
    if lexLe forward reversed then forward else reversed

/-- The wsol-incidence test applied inside `dfs_recursive` when rotating a
discovered cycle (it compares node addresses with `wsol_address`). -/
def Graph.edge_touches_wsol (g : Graph) (pool_index : Nat) : Bool :=
  let edge := g.edges.getD pool_index dummy_edge
  let node_a := g.nodes.getD edge.node_lowest dummy_node
  let node_b := g.nodes.getD edge.node_highest dummy_node
  node_a.address == g.wsol_address || node_b.address == g.wsol_address

/-- Model of `Graph::dfs_recursive`.  `fuel` bounds the recursion depth; with
the fuel chosen by `build_cycles` the `fuel = 0` branch is unreachable because
the `max_depth` guard fires first.  `none` models a Rust panic: either the
`self.adjacency[&current_node]` indexing of a missing key or the
`get_other_node(...).unwrap()`. -/
def Graph.dfs_recursive (g : Graph) (start_node max_depth : Nat) :
    Nat → Nat → List Bool → List Nat → List (List Nat) → Option (List (List Nat))
  | fuel, current_node, visited_edges, path, cycles =>
    if max_depth ≤ path.length then some cycles
    else
      match fuel with
      | 0 => none
      | fuel + 1 =>
        match alist_lookup g.adjacency current_node with
        | none => none
        | some adj_edges =>
          List.foldlM
            (fun cycles edge_index =>
              if visited_edges.getD edge_index false then some cycles
              else
                let edge := g.edges.getD edge_index dummy_edge
                match edge.get_other_node current_node with
                | none => none
                | some other_node =>
                  let visited' := visited_edges.set edge_index true
                  let path' := path ++ [edge_index]
                  let cycles' :=
                    if other_node = start_node ∧ 2 ≤ path'.length then
                      let canonical := Graph.canonicalize path'
                      let canonical :=
                        match canonical.findIdx? (fun pool_index => g.edge_touches_wsol pool_index) with
                        | some pos => canonical.rotate pos
                        | none => canonical
                      set_insert canonical cycles
                    else cycles
                  g.dfs_recursive start_node max_depth fuel other_node visited' path' cycles')
            cycles adj_edges

/-- Model of `Graph::build_cycles`; `none` models a panic inside the DFS. -/
def Graph.build_cycles (g : Graph) (max_depth : Nat) : Option Graph :=
  let start_node := g.wsol_node
  let visited_edges : List Bool := List.replicate g.edges.length false
  match g.dfs_recursive start_node max_depth (max_depth + 1) start_node visited_edges [] [] with
  | none => none
  | some cycles =>
    let all_cycles := cycles.foldl (fun acc cycle => set_insert (g.check_cycle cycle).2 acc) []
    some { g with all_cycles := all_cycles }

/-! ### Binary account decoder (client/src/decoders/orca_decoder.rs) -/

/-- Little-endian byte-list to natural number, the semantics of
`u128::from_le_bytes` / `u64::from_le_bytes` on valid bytes. -/
def le_bytes_to_nat (bytes : List Nat) : Nat :=
  bytes.foldr (fun b acc => b + 256 * acc) 0

/-- Little-endian signed 32-bit read (`i32::from_le_bytes`). -/
def i32_of_le_bytes (bytes : List Nat) : Int :=
  let u := le_bytes_to_nat bytes
  if u < 2 ^ 31 then (u : Int) else (u : Int) - 2 ^ 32

inductive OrcaDecodeError
  | wrong_length
  | wrong_discriminator
deriving DecidableEq

/-- The Whirlpool account discriminator. -/
def ORCA_DISCRIMINATOR : List Nat := [63, 149, 209, 12, 225, 128, 99, 9]

/-- Model of `decode_orca_account` (account data only; the surrounding
`Account` record adds nothing the function reads). -/
def decode_orca_account (data : List Nat) : Except OrcaDecodeError PoolUpdate :=
  if data.length ≠ 653 then .error .wrong_length
  else if data.take 8 ≠ ORCA_DISCRIMINATOR then .error .wrong_discriminator
  else
    .ok
      { new_liquidity := le_bytes_to_nat ((data.drop 49).take 16),
        new_sqrt_price := le_bytes_to_nat ((data.drop 65).take 16),
        new_current_tick_index := i32_of_le_bytes ((data.drop 81).take 4) }

/-! ### Meteora v3 instruction decoder
(client/src/transaction_decoders/meteora_v3.rs) -/

structure CompiledInstruction where
  program_id_index : Nat
  accounts : List Nat
  data : List Nat
deriving DecidableEq

inductive OperationType
  | Swap
  | AddLiquidity
  | RemoveLiquidity
deriving DecidableEq

structure DecodedInstruction where
  pool_address : Addr
  token_a_address : Addr
  token_b_address : Addr
  token_a_vault : Addr
  token_b_vault : Addr
  operation_type : OperationType
  change_liquidity_a : Nat
  change_liquidity_b : Nat
deriving DecidableEq

inductive MeteoraDecodeError
  | unsupported_instructions
  | unsupported_instruction_type
  | wrong_accounts_len
  | read_failure
deriving DecidableEq

def SWAP_DISC : List Nat := [248, 198, 158, 145, 225, 117, 135, 200]

def ADD_LIQUIDITY_DISC : List Nat := [181, 157, 89, 67, 143, 182, 52, 72]

def REMOVE_LIQUIDITY_DISC : List Nat := [80, 85, 209, 72, 24, 206, 177, 108]

def REMOVE_ALL_LIQUIDITY_DISC : List Nat := [10, 51, 61, 35, 112, 105, 24, 85]

/-- Slice read `data[lo..lo+8]` as little-endian u64; `none` models the Rust
panic of out-of-range slicing. -/
def read_u64_le (data : List Nat) (lo : Nat) : Option Nat :=
  if lo + 8 ≤ data.length then some (le_bytes_to_nat ((data.drop lo).take 8)) else none

/-- Slice read `data[lo..lo+16]` as little-endian u128. -/
def read_u128_le (data : List Nat) (lo : Nat) : Option Nat :=
  if lo + 16 ≤ data.length then some (le_bytes_to_nat ((data.drop lo).take 16)) else none

/-- Model of `decode_swap_instruction`.  Its `data` argument is the reader
already advanced past the 8-byte discriminator, exactly as in the source
(`reader.read_exact(&mut instruction_type)` advances the slice before it is
passed on), so `data[8..16]` below addresses bytes 16..24 of the full
instruction data. -/
def decode_swap_instruction (data : List Nat) (accounts : List Nat)
    (account_keys : List Addr) : Except MeteoraDecodeError DecodedInstruction :=
  if accounts.length ≠ 14 then .error .wrong_accounts_len
  else
    match read_u64_le data 8, read_u64_le data 16 with
    | some amount_in, some minimum_amount_out =>
      .ok
        { pool_address := account_keys.getD (accounts.getD 1 0) 0,
          token_a_vault := account_keys.getD (accounts.getD 4 0) 0,
          token_b_vault := account_keys.getD (accounts.getD 5 0) 0,
          token_a_address := account_keys.getD (accounts.getD 6 0) 0,
          token_b_address := account_keys.getD (accounts.getD 7 0) 0,
          operation_type := .Swap,
          change_liquidity_a := amount_in,
          change_liquidity_b := minimum_amount_out }
    | _, _ => .error .read_failure

/-- Model of `decode_add_liquidity_instruction` (reader already past the
discriminator). -/
def decode_add_liquidity_instruction (data : List Nat) (accounts : List Nat)
    (account_keys : List Addr) : Except MeteoraDecodeError DecodedInstruction :=
  if accounts.length ≠ 14 then .error .wrong_accounts_len
  else
    match read_u128_le data 8, read_u64_le data 24, read_u64_le data 32 with
    | some _liquidity_delta, some token_a_amount, some token_b_amount =>
      .ok
        { pool_address := account_keys.getD (accounts.getD 0 0) 0,
          token_a_vault := account_keys.getD (accounts.getD 4 0) 0,
          token_b_vault := account_keys.getD (accounts.getD 5 0) 0,
          token_a_address := account_keys.getD (accounts.getD 6 0) 0,
          token_b_address := account_keys.getD (accounts.getD 7 0) 0,
          operation_type := .AddLiquidity,
          change_liquidity_a := token_a_amount,
          change_liquidity_b := token_b_amount }
    | _, _, _ => .error .read_failure

/-- Model of `decode_remove_liquidity_instruction` (reader already past the
discriminator). -/
def decode_remove_liquidity_instruction (data : List Nat) (accounts : List Nat)
    (account_keys : List Addr) : Except MeteoraDecodeError DecodedInstruction :=
  if accounts.length ≠ 15 then .error .wrong_accounts_len
  else
    match read_u64_le data 8, read_u64_le data 16 with
    | some token_a_amount, some token_b_amount =>
      .ok
        { pool_address := account_keys.getD (accounts.getD 1 0) 0,
          token_a_vault := account_keys.getD (accounts.getD 5 0) 0,
          token_b_vault := account_keys.getD (accounts.getD 6 0) 0,
          token_a_address := account_keys.getD (accounts.getD 7 0) 0,
          token_b_address := account_keys.getD (accounts.getD 8 0) 0,
          operation_type := .RemoveLiquidity,
          change_liquidity_a := token_a_amount,
          change_liquidity_b := token_b_amount }
    | _, _ => .error .read_failure

/-- Discriminator dispatch on one compiled instruction, the body of the
`for instruction in target_instructions` loop of
`MeteoraV3TargetTransaction::decode`. -/
def decode_instruction_data (instr_data : List Nat) (accounts : List Nat)
    (account_keys : List Addr) : Except MeteoraDecodeError DecodedInstruction :=
  if instr_data.length < 8 then .error .read_failure
  else
    let instruction_type := instr_data.take 8
    let reader := instr_data.drop 8
    if instruction_type = SWAP_DISC then
      decode_swap_instruction reader accounts account_keys
    else if instruction_type = ADD_LIQUIDITY_DISC then
      decode_add_liquidity_instruction reader accounts account_keys
    else if instruction_type = REMOVE_LIQUIDITY_DISC then
      decode_remove_liquidity_instruction reader accounts account_keys
    else if instruction_type = REMOVE_ALL_LIQUIDITY_DISC then
      decode_remove_liquidity_instruction reader accounts account_keys
    else .error .unsupported_instruction_type

/-- Model of `MeteoraV3TargetTransaction::decode`: keep exactly the compiled
instructions whose `program_id_index` equals the matched program position,
fail when none matches, decode each in order, propagating the first error. -/
def meteora_v3_decode (instructions : List CompiledInstruction)
    (account_keys : List Addr) (program_index : Nat) : Except MeteoraDecodeError Unit :=
  let target_instructions := instructions.filter (fun i => i.program_id_index == program_index)
  if target_instructions.length = 0 then .error .unsupported_instructions
  else
    target_instructions.foldlM
      (fun _ instruction =>
        (decode_instruction_data instruction.data instruction.accounts account_keys).map
          (fun _ => ()))
      ()

/-! ### Concrete inputs used by the counterexamples and witnesses -/

def token_x : TokenInfo := { address := 10, decimals := 6, name := none, symbol := none }

def token_y : TokenInfo := { address := 11, decimals := 6, name := none, symbol := none }

def token_wsol : TokenInfo :=
  { address := WSOL_ADDRESS, decimals := 9, name := none, symbol := none }

def mk_pool (addr : Addr) (a b : TokenInfo) : PoolInfo :=
  { address := addr, fee_rate := 400, pool_type := .Concentrated, dex := .Orca,
    tick_spacing := 64, token_a := a, token_b := b,
    token_vault_a := 1000 + addr, token_vault_b := 2000 + addr, config := 3000 + addr }

/-- Triangle graph built by three `insert_pool` calls: pools X-WSOL, X-Y,
Y-WSOL.  Node ids: X = 0, WSOL = 1, Y = 2 (so `wsol_node = 1 ≠ 0`); edge ids:
0 = (0,1), 1 = (0,2), 2 = (1,2). -/
def triangle_graph : Graph :=
  Graph.insert_pools Graph.default
    [mk_pool 100 token_x token_wsol, mk_pool 101 token_x token_y,
     mk_pool 102 token_y token_wsol]

/-- Degenerate pool whose two tokens share one address; `insert_pool` still
creates an edge for it. -/
def degenerate_graph : Graph := Graph.insert_pool Graph.default (mk_pool 200 token_x token_x)

/-- Orca account bytes of length 653: the Whirlpool discriminator, liquidity
123456 at [49..65), sqrt price 1234567 at [65..81), tick -1234 at [81..85). -/
def orca_example_data : List Nat :=
  ORCA_DISCRIMINATOR ++ List.replicate 41 0 ++ [0x40, 0xE2, 0x01] ++ List.replicate 13 0 ++
    [0x87, 0xD6, 0x12] ++ List.replicate 13 0 ++ [0x2E, 0xFB, 0xFF, 0xFF] ++
    List.replicate 568 0

/-- Swap instruction data: the swap discriminator followed by the u64 values
1111, 2222, 3333 at full-data offsets 8, 16, 24. -/
def swap_instr_data : List Nat :=
  SWAP_DISC ++ [0x57, 0x04, 0, 0, 0, 0, 0, 0] ++ [0xAE, 0x08, 0, 0, 0, 0, 0, 0] ++
    [0x05, 0x0D, 0, 0, 0, 0, 0, 0]

/-- Fourteen distinct account keys 500..513. -/
def swap_keys : List Addr := (List.range 14).map (fun i => 500 + i)

/-! ### C1: check_cycle on well-formed WSOL-anchored cycles -/

/-- C1.  The claim fails on the code: in `triangle_graph` the base token is
node 1, the cycle [0, 1, 2] is a well-formed closed walk anchored at
`wsol_node` (the traversal succeeds and ends at `wsol_node`), yet
`check_cycle` — which compares the final node with the literal 0 rather than
with `wsol_node` — reports `true` and rotates the cycle; and the cycle
[1, 2, 0] stored in `all_cycles` by `build_cycles` also fails `check_cycle`. -/
theorem c1_check_cycle_flags_valid_cycle :
    walk_cycle triangle_graph.edges [0, 1, 2] triangle_graph.wsol_node 0 =
      .ok triangle_graph.wsol_node ∧
    triangle_graph.wsol_node = 1 ∧
    triangle_graph.check_cycle [0, 1, 2] = (true, [1, 2, 0]) ∧
    (Graph.build_cycles triangle_graph 3).map Graph.all_cycles = some [[1, 2, 0]] ∧
    triangle_graph.check_cycle [1, 2, 0] = (true, [0, 1, 2]) :=
  ⟨rfl, rfl, rfl, rfl, rfl⟩

/-! ### C2: the cycles stored by build_cycles -/

/-- C2.  The claim fails on the code: after `build_cycles` on
`triangle_graph` (max depth 3) the only stored cycle is [1, 2, 0], whose
first edge (edge 1, joining nodes 0 and 2) is not incident to `wsol_node = 1`
— `check_cycle`'s comparison of the final node with the literal 0 rotated the
correctly anchored cycle [0, 1, 2] away from its anchoring.  The stored cycle
cannot even be walked from `wsol_node`: the traversal fails at position 0. -/
theorem c2_stored_cycle_not_wsol_anchored :
    (Graph.build_cycles triangle_graph 3).map Graph.all_cycles = some [[1, 2, 0]] ∧
    (triangle_graph.edges.getD 1 dummy_edge).node_lowest ≠ triangle_graph.wsol_node ∧
    (triangle_graph.edges.getD 1 dummy_edge).node_highest ≠ triangle_graph.wsol_node ∧
    walk_cycle triangle_graph.edges [1, 2, 0] triangle_graph.wsol_node 0 = .error 0 :=
  ⟨rfl, by decide, by decide, rfl⟩

/-! ### C5: Meteora v3 swap decoding -/

/-- C5.  The account-position and dispatch parts of the claim hold, but the
payload offsets do not: for instruction data holding 1111 at full-data bytes
[8..16) and 2222 at [16..24), the decoder returns `amount_in = 2222` — it
strips the 8-byte discriminator from the reader and then indexes `data[8..16]`
of the remainder, i.e. bytes [16..24) of the instruction data, not the
claimed [8..16). -/
theorem c5_swap_amount_offsets_shifted :
    meteora_v3_decode
        [{ program_id_index := 3, accounts := List.range 14, data := swap_instr_data }]
        swap_keys 3 = .ok () ∧
    decode_swap_instruction (swap_instr_data.drop 8) (List.range 14) swap_keys =
      .ok { pool_address := 501, token_a_address := 506, token_b_address := 507,
            token_a_vault := 504, token_b_vault := 505, operation_type := .Swap,
            change_liquidity_a := 2222, change_liquidity_b := 3333 } ∧
    le_bytes_to_nat ((swap_instr_data.drop 8).take 8) = 1111 ∧
    le_bytes_to_nat ((swap_instr_data.drop 16).take 8) = 2222 ∧
    (2222 : Nat) ≠ 1111 ∧
    decode_swap_instruction (swap_instr_data.drop 8) (List.range 13) swap_keys =
      .error .wrong_accounts_len :=
  ⟨rfl, rfl, rfl, rfl, by decide, rfl⟩

/-! ### C6 counterexample: a pool whose two tokens coincide -/

/-- C6 counterexample.  `insert_pool` on a pool whose two tokens carry the
same address creates an edge with `node_lowest = node_highest = 0` and
`reversed = true`, refuting both `node_lowest < node_highest` and
`reversed = (a_id > b_id)` (here a_id = b_id = 0). -/
theorem c6_counterexample :
    (degenerate_graph.edges.getD 0 dummy_edge).node_lowest = 0 ∧
    (degenerate_graph.edges.getD 0 dummy_edge).node_highest = 0 ∧
    ¬ (degenerate_graph.edges.getD 0 dummy_edge).node_lowest <
        (degenerate_graph.edges.getD 0 dummy_edge).node_highest ∧
    (degenerate_graph.edges.getD 0 dummy_edge).reversed = true ∧
    alist_lookup degenerate_graph.address_to_node token_x.address = some 0 ∧
    degenerate_graph.edges.length = 1 := by
  refine ⟨rfl, rfl, by decide, rfl, rfl, rfl⟩

/-! ### C3 counterexample: canonicalize is not rotation-invariant on
lists with duplicates -/

/-- C3 counterexample.  [0, 2, 0, 1] is a rotation of [0, 1, 0, 2], yet the
two canonical forms differ, refuting the rotation law as stated for every
list of edge ids. -/
theorem c3_counterexample :
    ([0, 2, 0, 1] : List Nat) = ([0, 1, 0, 2] : List Nat).rotate 2 ∧
    Graph.canonicalize [0, 2, 0, 1] ≠ Graph.canonicalize [0, 1, 0, 2] := by
  exact ⟨by decide, by decide⟩

/-! ### C3: canonicalization laws -/

theorem min_idx_lt : ∀ (l : List Nat), l ≠ [] → min_idx l < l.length
  | [], h => absurd rfl h
  | [_], _ => Nat.zero_lt_one
  | a :: b :: rest, _ => by
    have ih := min_idx_lt (b :: rest) (by simp)
    simp only [min_idx]
    split
    · simp
    · simpa using Nat.succ_lt_succ ih

theorem min_idx_le : ∀ (l : List Nat) (i : Nat), i < l.length →
    l.getD (min_idx l) 0 ≤ l.getD i 0
  | [], i, h => absurd h (by simp)
  | [x], i, h => by
    have : i = 0 := Nat.lt_one_iff.mp (by simpa using h)
    subst this
    exact Nat.le_refl _
  | a :: b :: rest, i, h => by
    by_cases hc : a ≤ (b :: rest).getD (min_idx (b :: rest)) 0
    · have hmin : min_idx (a :: b :: rest) = 0 := by
        simp only [min_idx, if_pos hc]
      rw [hmin, List.getD_cons_zero]
      cases i with
      | zero => rw [List.getD_cons_zero]
      | succ k =>
        have hk : k < (b :: rest).length := by simpa using h
        rw [List.getD_cons_succ]
        exact Nat.le_trans hc (min_idx_le (b :: rest) k hk)
    · have hmin : min_idx (a :: b :: rest) = min_idx (b :: rest) + 1 := by
        simp only [min_idx, if_neg hc]
      rw [hmin, List.getD_cons_succ]
      cases i with
      | zero =>
        rw [List.getD_cons_zero]
        exact Nat.le_of_lt (Nat.lt_of_not_le hc)
      | succ k =>
        have hk : k < (b :: rest).length := by simpa using h
        rw [List.getD_cons_succ]
        exact min_idx_le (b :: rest) k hk

theorem getD_min_idx_mem (l : List Nat) (h : l ≠ []) : l.getD (min_idx l) 0 ∈ l := by
  rw [List.getD_eq_getElem _ _ (min_idx_lt l h)]
  exact List.getElem_mem _

theorem min_val_le_of_mem (l : List Nat) (x : Nat) (hx : x ∈ l) :
    l.getD (min_idx l) 0 ≤ x := by
  obtain ⟨n, hn, rfl⟩ := List.mem_iff_getElem.mp hx
  rw [← List.getD_eq_getElem _ 0 hn]
  exact min_idx_le l n hn

theorem getD_zero_rotate (l : List Nat) (n : Nat) (hn : n < l.length) :
    (l.rotate n).getD 0 0 = l.getD n 0 := by
  have h0 : 0 < (l.rotate n).length := by
    rw [List.length_rotate]; exact Nat.lt_of_le_of_lt (Nat.zero_le n) hn
  rw [List.getD_eq_getElem _ 0 h0, List.getD_eq_getElem _ 0 hn, List.getElem_rotate]
  simp [Nat.mod_eq_of_lt hn]

theorem min_val_rotate (l : List Nat) (k : Nat) (h : l ≠ []) :
    (l.rotate k).getD (min_idx (l.rotate k)) 0 = l.getD (min_idx l) 0 := by
  have hlen : 0 < l.length := List.length_pos.mpr h
  have h' : l.rotate k ≠ [] := by
    rw [← List.length_pos, List.length_rotate]; exact hlen
  apply Nat.le_antisymm
  · exact min_val_le_of_mem _ _ (List.mem_rotate.mpr (getD_min_idx_mem l h))
  · exact min_val_le_of_mem _ _ (List.mem_rotate.mp (getD_min_idx_mem _ h'))

theorem rotate_eq_rotate_of_getD (l : List Nat) (hnd : l.Nodup) (i j : Nat)
    (hi : i < l.length) (hj : j < l.length) (hij : l.getD i 0 = l.getD j 0) :
    l.rotate i = l.rotate j := by
  have : i = j := by
    refine (@List.Nodup.getElem_inj_iff ℕ l hnd i hi j hj).mp ?_
    rwa [← List.getD_eq_getElem _ 0 hi, ← List.getD_eq_getElem _ 0 hj]
  rw [this]

theorem min_rot_rotate (l : List Nat) (k : Nat) (hnd : l.Nodup) :
    min_rot (l.rotate k) = min_rot l := by
  rcases eq_or_ne l [] with rfl | h
  · simp [min_rot]
  · have hlen : 0 < l.length := List.length_pos.mpr h
    have h' : l.rotate k ≠ [] := by
      rw [← List.length_pos, List.length_rotate]; exact hlen
    have hm' : min_idx (l.rotate k) < l.length := by
      have := min_idx_lt _ h'
      rwa [List.length_rotate] at this
    rw [min_rot, min_rot, List.rotate_rotate, ← List.rotate_mod]
    apply rotate_eq_rotate_of_getD l hnd _ _ (Nat.mod_lt _ hlen) (min_idx_lt l h)
    calc l.getD ((k + min_idx (l.rotate k)) % l.length) 0
        = (l.rotate ((k + min_idx (l.rotate k)) % l.length)).getD 0 0 :=
          (getD_zero_rotate l _ (Nat.mod_lt _ hlen)).symm
      _ = ((l.rotate k).rotate (min_idx (l.rotate k))).getD 0 0 := by
          rw [List.rotate_rotate, List.rotate_mod]
      _ = (l.rotate k).getD (min_idx (l.rotate k)) 0 := by
          apply getD_zero_rotate (l.rotate k)
          rwa [List.length_rotate]
      _ = l.getD (min_idx l) 0 := min_val_rotate l k h

theorem lexLe_total : ∀ a b : List Nat, lexLe a b = true ∨ lexLe b a = true
  | [], _ => Or.inl rfl
  | _ :: _, [] => Or.inr rfl
  | a :: as, b :: bs => by
    rcases Nat.lt_trichotomy a b with h | h | h
    · left; simp [lexLe, h]
    · subst h
      rcases lexLe_total as bs with ih | ih
      · left; simpa [lexLe, Nat.lt_irrefl] using ih
      · right; simpa [lexLe, Nat.lt_irrefl] using ih
    · right; simp [lexLe, h]

theorem lexLe_antisymm : ∀ a b : List Nat, lexLe a b = true → lexLe b a = true → a = b
  | [], [], _, _ => rfl
  | [], _ :: _, _, h2 => by simp [lexLe] at h2
  | _ :: _, [], h1, _ => by simp [lexLe] at h1
  | a :: as, b :: bs, h1, h2 => by
    rcases Nat.lt_trichotomy a b with h | h | h
    · simp [lexLe, h, Nat.lt_asymm h] at h2
    · subst h
      have := lexLe_antisymm as bs (by simpa [lexLe, Nat.lt_irrefl] using h1)
        (by simpa [lexLe, Nat.lt_irrefl] using h2)
      rw [this]
    · simp [lexLe, h, Nat.lt_asymm h] at h1

theorem lex_min_comm (A B : List Nat) :
    (if lexLe A B then A else B) = (if lexLe B A then B else A) := by
  by_cases h1 : lexLe A B = true
  · by_cases h2 : lexLe B A = true
    · rw [if_pos h1, if_pos h2]
      exact lexLe_antisymm A B h1 h2
    · rw [if_pos h1, if_neg h2]
  · by_cases h2 : lexLe B A = true
    · rw [if_neg h1, if_pos h2]
    · exfalso
      rcases lexLe_total A B with h | h
      · exact h1 h
      · exact h2 h

/-- C3 amended.  The canonicalization laws, with the rotation law restricted
to duplicate-free cycles (it fails for lists with repeated edge ids, see the
counterexample): canonical of the empty and singleton lists, rotation and
reversal invariance, and the characterisation as the lexicographically
smaller of the min-rotated forward and min-rotated reversed sequences. -/
theorem c3_canonicalization_laws :
    Graph.canonicalize [] = [] ∧
    (∀ x : Nat, Graph.canonicalize [x] = [x]) ∧
    (∀ (c : List Nat) (k : Nat), c.Nodup →
      Graph.canonicalize (c.rotate k) = Graph.canonicalize c) ∧
    (∀ c : List Nat, Graph.canonicalize c.reverse = Graph.canonicalize c) ∧
    (∀ c : List Nat, c ≠ [] →
      (Graph.canonicalize c = min_rot c ∧ lexLe (min_rot c) (min_rot c.reverse) = true) ∨
      (Graph.canonicalize c = min_rot c.reverse ∧
        lexLe (min_rot c.reverse) (min_rot c) = true)) := by
  refine ⟨rfl, ?_, ?_, ?_, ?_⟩
  · intro x
    simp [Graph.canonicalize, min_rot, min_idx, lexLe, Nat.lt_irrefl]
  · intro c k hnd
    rcases eq_or_ne c [] with rfl | hne
    · simp
    · have hlen : c.length ≠ 0 := by simpa [List.length_pos, List.length_eq_zero] using hne
      have hf : min_rot (c.rotate k) = min_rot c := min_rot_rotate c k hnd
      have hrev : min_rot (c.rotate k).reverse = min_rot c.reverse := by
        rw [List.reverse_rotate]
        exact min_rot_rotate c.reverse _ (by simpa using hnd)
      simp [Graph.canonicalize, List.length_rotate, hlen, hf, hrev]
  · intro c
    rcases eq_or_ne c [] with rfl | hne
    · rfl
    · have hlen : c.length ≠ 0 := by simpa [List.length_eq_zero] using hne
      have hlen' : c.reverse.length ≠ 0 := by simpa [List.length_reverse] using hlen
      simp only [Graph.canonicalize, hlen, hlen', if_false, List.reverse_reverse]
      exact lex_min_comm (min_rot c.reverse) (min_rot c)
  · intro c hne
    have hlen : c.length ≠ 0 := by simpa [List.length_eq_zero] using hne
    by_cases h : lexLe (min_rot c) (min_rot c.reverse) = true
    · left
      constructor
      · simp [Graph.canonicalize, hlen, h]
      · exact h
    · right
      constructor
      · simp [Graph.canonicalize, hlen, h]
      · rcases lexLe_total (min_rot c) (min_rot c.reverse) with h' | h'
        · exact absurd h' h
        · exact h'

/-- Witness for C3: the rotation law applied to the concrete duplicate-free
cycle [5, 7, 6] rotated by 2, and the singleton law at 3. -/
theorem c3_canonicalization_laws_witness :
    Graph.canonicalize (([5, 7, 6] : List Nat).rotate 2) = Graph.canonicalize [5, 7, 6] ∧
    Graph.canonicalize [3] = [3] :=
  ⟨c3_canonicalization_laws.2.2.1 [5, 7, 6] 2 (by decide),
   c3_canonicalization_laws.2.1 3⟩

/-! ### C8: the Orca account decoder -/

/-- C8.  Decoding succeeds exactly on length 653 with the Whirlpool
discriminator; the three fields are the little-endian reads at [49..65),
[65..81), [81..85); length 652 gives WrongLength, a matching length with a
different discriminator gives WrongDiscriminator; and the spec's literal
example decodes to liquidity 123456, sqrt price 1234567, tick -1234. -/
theorem c8_decode_orca :
    (∀ data : List Nat,
      (∃ u, decode_orca_account data = .ok u) ↔
        (data.length = 653 ∧ data.take 8 = ORCA_DISCRIMINATOR)) ∧
    (∀ data : List Nat, data.length = 653 → data.take 8 = ORCA_DISCRIMINATOR →
      decode_orca_account data = .ok
        { new_liquidity := le_bytes_to_nat ((data.drop 49).take 16),
          new_sqrt_price := le_bytes_to_nat ((data.drop 65).take 16),
          new_current_tick_index := i32_of_le_bytes ((data.drop 81).take 4) }) ∧
    (∀ data : List Nat, data.length = 652 →
      decode_orca_account data = .error .wrong_length) ∧
    (∀ data : List Nat, data.length = 653 → data.take 8 ≠ ORCA_DISCRIMINATOR →
      decode_orca_account data = .error .wrong_discriminator) ∧
    decode_orca_account orca_example_data =
      .ok { new_liquidity := 123456, new_sqrt_price := 1234567,
            new_current_tick_index := -1234 } := by
  refine ⟨?_, ?_, ?_, ?_, rfl⟩
  · intro data
    by_cases h1 : data.length = 653 <;> by_cases h2 : data.take 8 = ORCA_DISCRIMINATOR <;>
      simp [decode_orca_account, h1, h2]
  · intro data h1 h2
    simp [decode_orca_account, h1, h2]
  · intro data h
    simp [decode_orca_account, h]
  · intro data h1 h2
    simp [decode_orca_account, h1, h2]

/-- Witness for C8: the general clauses applied at the literal inputs. -/
theorem c8_decode_orca_witness :
    decode_orca_account (List.replicate 652 0) = .error .wrong_length ∧
    decode_orca_account (List.replicate 653 0) = .error .wrong_discriminator ∧
    (∃ u, decode_orca_account orca_example_data = .ok u) :=
  ⟨c8_decode_orca.2.2.1 (List.replicate 652 0) (by simp),
   c8_decode_orca.2.2.2.1 (List.replicate 653 0) (by simp) (by decide),
   (c8_decode_orca.1 orca_example_data).2 ⟨by decide, by decide⟩⟩

/-! ### C9: insert_node idempotence and node counting -/

theorem alist_lookup_mem {β : Type} :
    ∀ (m : List (Nat × β)) (a : Nat) (v : β), alist_lookup m a = some v → (a, v) ∈ m
  | [], _, _, h => by simp [alist_lookup] at h
  | (k, w) :: rest, a, v, h => by
    by_cases hk : k = a
    · subst hk
      have hwv : w = v := by simpa [alist_lookup] using h
      subst hwv
      exact List.mem_cons_self _ _
    · simp only [alist_lookup, if_neg hk] at h
      exact List.mem_cons_of_mem _ (alist_lookup_mem rest a v h)

/-- Counting invariant: the node-map keys are exactly `S` and the node table
has `S.card` entries. -/
def NodeCountInv (g : Graph) (S : Finset Addr) : Prop :=
  (∀ a : Addr, (alist_lookup g.address_to_node a).isSome ↔ a ∈ S) ∧
  g.nodes.length = S.card

theorem node_count_inv_insert (g : Graph) (S : Finset Addr) (t : TokenInfo)
    (h : NodeCountInv g S) : NodeCountInv (g.insert_node t).2 (insert t.address S) := by
  obtain ⟨hmem, hcard⟩ := h
  by_cases hl : (alist_lookup g.address_to_node t.address).isSome
  · obtain ⟨i, hi⟩ := Option.isSome_iff_exists.mp hl
    have hg : (g.insert_node t).2 = g := by simp [Graph.insert_node, hi]
    have ht : t.address ∈ S := (hmem t.address).mp hl
    rw [hg, Finset.insert_eq_self.mpr ht]
    exact ⟨hmem, hcard⟩
  · have hnone : alist_lookup g.address_to_node t.address = none :=
      Option.not_isSome_iff_eq_none.mp hl
    have htS : t.address ∉ S := fun hin => hl ((hmem t.address).mpr hin)
    constructor
    · intro a
      simp only [Graph.insert_node, hnone, alist_lookup]
      by_cases ha : t.address = a
      · subst ha
        simp
      · rw [if_neg ha, hmem a]
        constructor
        · intro hS
          exact Finset.mem_insert_of_mem hS
        · intro hins
          rcases Finset.mem_insert.mp hins with h' | hS
          · exact absurd h'.symm ha
          · exact hS
    · simp only [Graph.insert_node, hnone]
      simp [hcard, Finset.card_insert_of_not_mem htS]

theorem node_count_inv_insert_nodes :
    ∀ (ts : List TokenInfo) (g : Graph) (S : Finset Addr), NodeCountInv g S →
      NodeCountInv (g.insert_nodes ts) (S ∪ (ts.map TokenInfo.address).toFinset)
  | [], g, S, h => by simpa [Graph.insert_nodes] using h
  | t :: rest, g, S, h => by
    have h1 := node_count_inv_insert g S t h
    have h2 := node_count_inv_insert_nodes rest (g.insert_node t).2 (insert t.address S) h1
    have hset : insert t.address S ∪ (rest.map TokenInfo.address).toFinset =
        S ∪ ((t :: rest).map TokenInfo.address).toFinset := by
      simp [Finset.insert_union, Finset.union_insert]
    rw [hset] at h2
    exact h2

/-- C9.  Inserting a token whose parsed address is already in
`address_to_node` returns the recorded id and the whole graph unchanged, and
after any sequence of insertions from the default graph the node count equals
the number of distinct inserted addresses. -/
theorem c9_insert_node_idempotent :
    (∀ (g : Graph) (t : TokenInfo) (i : Nat),
      alist_lookup g.address_to_node t.address = some i → g.insert_node t = (i, g)) ∧
    (∀ ts : List TokenInfo,
      (Graph.default.insert_nodes ts).nodes.length =
        (ts.map TokenInfo.address).toFinset.card) := by
  constructor
  · intro g t i h
    simp [Graph.insert_node, h]
  · intro ts
    have base : NodeCountInv Graph.default ∅ := by
      constructor
      · intro a
        simp [Graph.default, alist_lookup]
      · simp [Graph.default]
    have h := node_count_inv_insert_nodes ts Graph.default ∅ base
    simpa using h.2

/-- Witness for C9: re-inserting token X into the triangle graph returns node
id 0 with the graph untouched, and inserting [X, X, Y] from scratch yields
two nodes. -/
theorem c9_insert_node_idempotent_witness :
    triangle_graph.insert_node token_x = (0, triangle_graph) ∧
    (Graph.default.insert_nodes [token_x, token_x, token_y]).nodes.length =
      ([token_x, token_x, token_y].map TokenInfo.address).toFinset.card :=
  ⟨c9_insert_node_idempotent.1 triangle_graph token_x 0 rfl,
   c9_insert_node_idempotent.2 [token_x, token_x, token_y]⟩

/-! ### C7: update_edge -/

/-- C7.  On a graph whose edge map only holds in-range indices (true of every
graph built by the insert operations), `update_edge` fails exactly on
addresses absent from `address_to_edge`, leaves the graph untouched on
failure, and on success replaces exactly the three dynamic fields of the
addressed edge, leaving its static fields, every other edge, the nodes, both
index maps, the adjacency, and the cycle set unchanged. -/
theorem c7_update_edge :
    ∀ (g : Graph) (a : Addr) (d : PoolUpdate),
      (∀ p ∈ g.address_to_edge, p.2 < g.edges.length) →
      (((g.update_edge a d).1 = false ↔ alist_lookup g.address_to_edge a = none) ∧
       ((g.update_edge a d).1 = false → (g.update_edge a d).2 = g) ∧
       (∀ i, alist_lookup g.address_to_edge a = some i →
         (g.update_edge a d).1 = true ∧
         (g.update_edge a d).2.nodes = g.nodes ∧
         (g.update_edge a d).2.wsol_node = g.wsol_node ∧
         (g.update_edge a d).2.wsol_address = g.wsol_address ∧
         (g.update_edge a d).2.address_to_node = g.address_to_node ∧
         (g.update_edge a d).2.address_to_edge = g.address_to_edge ∧
         (g.update_edge a d).2.adjacency = g.adjacency ∧
         (g.update_edge a d).2.all_cycles = g.all_cycles ∧
         (g.update_edge a d).2.edges.length = g.edges.length ∧
         (∀ j, j ≠ i → (g.update_edge a d).2.edges.get? j = g.edges.get? j) ∧
         (∀ ed, g.edges.get? i = some ed →
           (g.update_edge a d).2.edges.get? i = some
             { ed with
               sqrt_price := some d.new_sqrt_price,
               liquidity := some d.new_liquidity,
               current_tick_index := some d.new_current_tick_index }))) := by
  intro g a d hwf
  cases hl : alist_lookup g.address_to_edge a with
  | none =>
    refine ⟨by simp [Graph.update_edge, hl], by simp [Graph.update_edge, hl], ?_⟩
    intro i hi
    exact absurd hi (by simp)
  | some i =>
    have hrange : i < g.edges.length := hwf (a, i) (alist_lookup_mem _ _ _ hl)
    obtain ⟨ed, hed⟩ : ∃ ed, g.edges[i]? = some ed :=
      ⟨g.edges[i], List.getElem?_eq_getElem hrange⟩
    have hupd : g.update_edge a d =
        (true,
          { g with
            edges := g.edges.set i
              { ed with
                liquidity := some d.new_liquidity,
                sqrt_price := some d.new_sqrt_price,
                current_tick_index := some d.new_current_tick_index } }) := by
      simp only [Graph.update_edge, hl, List.get?_eq_getElem?, hed]
    refine ⟨by simp [hupd], by simp [hupd], ?_⟩
    intro i' hi'
    have hii : i' = i := (Option.some.injEq _ _ ▸ hi' : i = i').symm
    subst hii
    refine ⟨by simp [hupd], by simp [hupd], by simp [hupd], by simp [hupd], by simp [hupd],
      by simp [hupd], by simp [hupd], by simp [hupd], by simp [hupd], ?_, ?_⟩
    · intro j hj
      simp only [hupd]
      rw [List.get?_eq_getElem?, List.get?_eq_getElem?]
      exact List.getElem?_set_ne (fun h => hj h.symm)
    · intro ed' hed'
      rw [List.get?_eq_getElem?, hed, Option.some.injEq] at hed'
      subst hed'
      simp only [hupd]
      rw [List.get?_eq_getElem?]
      exact List.getElem?_set_self hrange

/-- Witness for C7: updating the known pool address 100 on the triangle graph
succeeds; updating the unknown address 999 leaves the graph unchanged. -/
theorem c7_update_edge_witness :
    (triangle_graph.update_edge 100
      { new_sqrt_price := 777, new_liquidity := 888, new_current_tick_index := -5 }).1 = true ∧
    (triangle_graph.update_edge 999
      { new_sqrt_price := 777, new_liquidity := 888, new_current_tick_index := -5 }).2 =
      triangle_graph :=
  ⟨((c7_update_edge triangle_graph 100
      { new_sqrt_price := 777, new_liquidity := 888, new_current_tick_index := -5 }
      (by decide)).2.2 0 rfl).1,
   (c7_update_edge triangle_graph 999
      { new_sqrt_price := 777, new_liquidity := 888, new_current_tick_index := -5 }
      (by decide)).2.1
     ((c7_update_edge triangle_graph 999
        { new_sqrt_price := 777, new_liquidity := 888, new_current_tick_index := -5 }
        (by decide)).1.mpr rfl)⟩

/-! ### Well-formedness invariants of insert-built graphs (for C6 and C10) -/

/-- Structural invariants established by `Graph::default` and preserved by
`insert_node`, `insert_edge` (on in-range endpoints) and `insert_pool`. -/
structure GraphWF (g : Graph) : Prop where
  node_map_range : ∀ a i, alist_lookup g.address_to_node a = some i → i < g.nodes.length
  node_map_addr : ∀ a i, alist_lookup g.address_to_node a = some i →
    (g.nodes.getD i dummy_node).address = a
  adj_keys : ∀ v, (alist_lookup g.adjacency v).isSome ↔ v < g.nodes.length
  adj_mem : ∀ v l, alist_lookup g.adjacency v = some l → ∀ e, e ∈ l ↔
    (e < g.edges.length ∧
      (v = (g.edges.getD e dummy_edge).node_lowest ∨
       v = (g.edges.getD e dummy_edge).node_highest))
  edge_nodes : ∀ e, e < g.edges.length →
    (g.edges.getD e dummy_edge).node_lowest < g.nodes.length ∧
    (g.edges.getD e dummy_edge).node_highest < g.nodes.length
  edge_map_range : ∀ a i, alist_lookup g.address_to_edge a = some i → i < g.edges.length
  wsol_ok : g.wsol_node = usize_max ∨ g.wsol_node < g.nodes.length

theorem graphWF_default : GraphWF Graph.default := by
  constructor <;> intros <;> simp_all [Graph.default, alist_lookup]

theorem mem_set_add {e x : Nat} {l : List Nat} :
    e ∈ (if x ∈ l then l else l ++ [x]) ↔ (e ∈ l ∨ e = x) := by
  by_cases h : x ∈ l
  · rw [if_pos h]
    constructor
    · exact Or.inl
    · rintro (h' | rfl)
      · exact h'
      · exact h
  · rw [if_neg h]
    simp [List.mem_append]

theorem alist_lookup_adj_insert (adj : List (Nat × List Nat)) (k e v : Nat) :
    alist_lookup (adj_insert adj k e) v =
      (alist_lookup adj v).map
        (fun l => if v = k then (if e ∈ l then l else l ++ [e]) else l) := by
  induction adj with
  | nil => rfl
  | cons p rest ih =>
    obtain ⟨k', l'⟩ := p
    by_cases hk : k' = v
    · subst hk
      simp [adj_insert, alist_lookup]
    · simpa [adj_insert, alist_lookup, hk] using ih

theorem adj_insert_isSome (adj : List (Nat × List Nat)) (k e v : Nat) :
    (alist_lookup (adj_insert adj k e) v).isSome = (alist_lookup adj v).isSome := by
  rw [alist_lookup_adj_insert]
  cases alist_lookup adj v <;> rfl

/-- The node record built by `insert_node`. -/
def mk_node (t : TokenInfo) : Node :=
  { address := t.address, decimals := t.decimals,
    name := t.name.getD "Empty Name", symbol := t.symbol.getD "Empty Symbol" }

theorem insert_node_snd_some (g : Graph) (t : TokenInfo) (i : Nat)
    (h : alist_lookup g.address_to_node t.address = some i) :
    (g.insert_node t).2 = g := by
  simp [Graph.insert_node, h]

theorem insert_node_snd_none (g : Graph) (t : TokenInfo)
    (h : alist_lookup g.address_to_node t.address = none) :
    (g.insert_node t).2 =
      { g with
        wsol_node := if t.address = g.wsol_address then g.nodes.length else g.wsol_node,
        nodes := g.nodes ++ [mk_node t],
        address_to_node := (t.address, g.nodes.length) :: g.address_to_node,
        adjacency := (g.nodes.length, []) :: g.adjacency } := by
  simp [Graph.insert_node, h, mk_node]

theorem insert_node_fst_some (g : Graph) (t : TokenInfo) (i : Nat)
    (h : alist_lookup g.address_to_node t.address = some i) :
    (g.insert_node t).1 = i := by
  simp [Graph.insert_node, h]

theorem insert_node_fst_none (g : Graph) (t : TokenInfo)
    (h : alist_lookup g.address_to_node t.address = none) :
    (g.insert_node t).1 = g.nodes.length := by
  simp [Graph.insert_node, h]

theorem insert_node_edges (g : Graph) (t : TokenInfo) :
    (g.insert_node t).2.edges = g.edges := by
  cases h : alist_lookup g.address_to_node t.address with
  | some i => rw [insert_node_snd_some g t i h]
  | none => rw [insert_node_snd_none g t h]

theorem insert_node_nodes_mono (g : Graph) (t : TokenInfo) :
    g.nodes.length ≤ (g.insert_node t).2.nodes.length := by
  cases h : alist_lookup g.address_to_node t.address with
  | some i => rw [insert_node_snd_some g t i h]
  | none =>
    rw [insert_node_snd_none g t h]
    simp

theorem insert_node_fst_lt (g : Graph) (t : TokenInfo) (hwf : GraphWF g) :
    (g.insert_node t).1 < (g.insert_node t).2.nodes.length := by
  cases h : alist_lookup g.address_to_node t.address with
  | some i =>
    have h1 : (g.insert_node t).1 = i := by simp [Graph.insert_node, h]
    rw [h1, insert_node_snd_some g t i h]
    exact hwf.node_map_range _ _ h
  | none =>
    have h1 : (g.insert_node t).1 = g.nodes.length := by simp [Graph.insert_node, h]
    rw [h1, insert_node_snd_none g t h]
    simp

theorem insert_node_lookup_self (g : Graph) (t : TokenInfo) :
    alist_lookup (g.insert_node t).2.address_to_node t.address = some (g.insert_node t).1 := by
  cases h : alist_lookup g.address_to_node t.address with
  | some i =>
    have h1 : (g.insert_node t).1 = i := by simp [Graph.insert_node, h]
    rw [h1, insert_node_snd_some g t i h]
    exact h
  | none =>
    have h1 : (g.insert_node t).1 = g.nodes.length := by simp [Graph.insert_node, h]
    rw [h1, insert_node_snd_none g t h]
    simp [alist_lookup]

theorem wf_insert_node (g : Graph) (t : TokenInfo) (hwf : GraphWF g) :
    GraphWF (g.insert_node t).2 := by
  cases hl : alist_lookup g.address_to_node t.address with
  | some i =>
    rw [insert_node_snd_some g t i hl]
    exact hwf
  | none =>
    rw [insert_node_snd_none g t hl]
    constructor
    · intro a i h
      simp only [alist_lookup] at h
      by_cases ha : t.address = a
      · rw [if_pos ha, Option.some.injEq] at h
        simp [← h]
      · rw [if_neg ha] at h
        have := hwf.node_map_range a i h
        simp only [List.length_append, List.length_cons, List.length_nil]
        omega
    · intro a i h
      simp only [alist_lookup] at h
      by_cases ha : t.address = a
      · rw [if_pos ha, Option.some.injEq] at h
        subst h
        rw [List.getD_append_right _ _ _ _ (Nat.le_refl _)]
        simpa [mk_node] using ha
      · rw [if_neg ha] at h
        have hi := hwf.node_map_range a i h
        rw [List.getD_append _ _ _ _ hi]
        exact hwf.node_map_addr a i h
    · intro v
      simp only [alist_lookup]
      by_cases hv : g.nodes.length = v
      · rw [if_pos hv]
        simp only [List.length_append, List.length_cons, List.length_nil]
        constructor
        · intro _; omega
        · intro _; rfl
      · rw [if_neg hv]
        rw [hwf.adj_keys v]
        simp only [List.length_append, List.length_cons, List.length_nil]
        omega
    · intro v l h e
      simp only [alist_lookup] at h
      by_cases hv : g.nodes.length = v
      · rw [if_pos hv, Option.some.injEq] at h
        subst h
        simp only [List.not_mem_nil, false_iff, not_and]
        intro he
        have hb := hwf.edge_nodes e he
        rw [← hv]
        rintro (h' | h') <;> omega
      · rw [if_neg hv] at h
        exact hwf.adj_mem v l h e
    · intro e he
      have := hwf.edge_nodes e he
      simp only [List.length_append, List.length_cons, List.length_nil]
      omega
    · exact hwf.edge_map_range
    · by_cases hb : t.address = g.wsol_address
      · rw [if_pos hb]
        right
        simp
      · rw [if_neg hb]
        rcases hwf.wsol_ok with h | h
        · exact Or.inl h
        · right
          simp only [List.length_append, List.length_cons, List.length_nil]
          omega

/-- The edge record built by `insert_edge`. -/
def mk_edge (g : Graph) (pool : PoolInfo) (n0 n1 : Nat) : Edge :=
  { address := pool.address, fee_rate := pool.fee_rate, pool_type := pool.pool_type,
    dex := pool.dex, tick_spacing := pool.tick_spacing,
    token_vault_lowest := if n0 < n1 then pool.token_vault_a else pool.token_vault_b,
    token_vault_highest := if n0 < n1 then pool.token_vault_b else pool.token_vault_a,
    config := pool.config,
    node_lowest := if n0 < n1 then n0 else n1,
    node_highest := if n0 < n1 then n1 else n0,
    decimals_lowest := (g.nodes.getD (if n0 < n1 then n0 else n1) dummy_node).decimals,
    decimals_highest := (g.nodes.getD (if n0 < n1 then n1 else n0) dummy_node).decimals,
    reversed := if n0 < n1 then false else true,
    sqrt_price := none, liquidity := none, current_tick_index := none }

theorem insert_edge_eq (g : Graph) (pool : PoolInfo) (n0 n1 : Nat) :
    g.insert_edge pool n0 n1 =
      (g.edges.length,
       { g with
         edges := g.edges ++ [mk_edge g pool n0 n1],
         address_to_edge := (pool.address, g.edges.length) :: g.address_to_edge,
         adjacency :=
           adj_insert (adj_insert g.adjacency (if n0 < n1 then n0 else n1) g.edges.length)
             (if n0 < n1 then n1 else n0) g.edges.length }) := by
  by_cases hc : n0 < n1 <;> simp [Graph.insert_edge, mk_edge, hc]

theorem wf_insert_edge (g : Graph) (pool : PoolInfo) (n0 n1 : Nat) (hwf : GraphWF g)
    (h0 : n0 < g.nodes.length) (h1 : n1 < g.nodes.length) :
    GraphWF (g.insert_edge pool n0 n1).2 := by
  rw [insert_edge_eq]
  set L := if n0 < n1 then n0 else n1 with hL
  set H := if n0 < n1 then n1 else n0 with hH
  have hLlt : L < g.nodes.length := by rw [hL]; split <;> assumption
  have hHlt : H < g.nodes.length := by rw [hH]; split <;> assumption
  have hnew_low : (mk_edge g pool n0 n1).node_lowest = L := rfl
  have hnew_high : (mk_edge g pool n0 n1).node_highest = H := rfl
  constructor
  · exact hwf.node_map_range
  · exact hwf.node_map_addr
  · intro v
    dsimp only
    rw [adj_insert_isSome, adj_insert_isSome]
    exact hwf.adj_keys v
  · intro v l h e
    simp only [alist_lookup_adj_insert] at h
    cases hl0 : alist_lookup g.adjacency v with
    | none => rw [hl0] at h; simp at h
    | some l0 =>
      rw [hl0] at h
      simp only [Option.map_some', Option.some.injEq] at h
      subst h
      have hold := hwf.adj_mem v l0 hl0
      constructor
      · intro hmem
        by_cases hvH : v = H
        · rw [if_pos hvH] at hmem
          rcases mem_set_add.mp hmem with hmem' | rfl
          · by_cases hvL : v = L
            · rw [if_pos hvL] at hmem'
              rcases mem_set_add.mp hmem' with hmem'' | rfl
              · obtain ⟨helt, hend⟩ := (hold e).mp hmem''
                refine ⟨by simp only [List.length_append]; omega, ?_⟩
                rw [List.getD_append _ _ _ _ helt]
                exact hend
              · refine ⟨by simp [List.length_append], ?_⟩
                rw [List.getD_append_right _ _ _ _ (Nat.le_refl _)]
                simp only [Nat.sub_self, List.getD_cons_zero]
                exact Or.inr hvH
            · rw [if_neg hvL] at hmem'
              obtain ⟨helt, hend⟩ := (hold e).mp hmem'
              refine ⟨by simp only [List.length_append]; omega, ?_⟩
              rw [List.getD_append _ _ _ _ helt]
              exact hend
          · refine ⟨by simp [List.length_append], ?_⟩
            rw [List.getD_append_right _ _ _ _ (Nat.le_refl _)]
            simp only [Nat.sub_self, List.getD_cons_zero]
            exact Or.inr hvH
        · rw [if_neg hvH] at hmem
          by_cases hvL : v = L
          · rw [if_pos hvL] at hmem
            rcases mem_set_add.mp hmem with hmem' | rfl
            · obtain ⟨helt, hend⟩ := (hold e).mp hmem'
              refine ⟨by simp only [List.length_append]; omega, ?_⟩
              rw [List.getD_append _ _ _ _ helt]
              exact hend
            · refine ⟨by simp [List.length_append], ?_⟩
              rw [List.getD_append_right _ _ _ _ (Nat.le_refl _)]
              simp only [Nat.sub_self, List.getD_cons_zero]
              exact Or.inl hvL
          · rw [if_neg hvL] at hmem
            obtain ⟨helt, hend⟩ := (hold e).mp hmem
            refine ⟨by simp only [List.length_append]; omega, ?_⟩
            rw [List.getD_append _ _ _ _ helt]
            exact hend
      · rintro ⟨helt, hend⟩
        simp only [List.length_append, List.length_cons, List.length_nil] at helt
        have hsplit : e < g.edges.length ∨ e = g.edges.length := by omega
        have step_mem : ∀ (x : List Nat), e ∈ x → e ∈ (if v = H then
            (if g.edges.length ∈ x then x else x ++ [g.edges.length]) else x) := by
          intro x hx
          by_cases hvH : v = H
          · rw [if_pos hvH]
            exact mem_set_add.mpr (Or.inl hx)
          · rw [if_neg hvH]
            exact hx
        rcases hsplit with he | rfl
        · rw [List.getD_append _ _ _ _ he] at hend
          have hmem0 : e ∈ l0 := (hold e).mpr ⟨he, hend⟩
          apply step_mem
          by_cases hvL : v = L
          · rw [if_pos hvL]
            exact mem_set_add.mpr (Or.inl hmem0)
          · rw [if_neg hvL]
            exact hmem0
        · rw [List.getD_append_right _ _ _ _ (Nat.le_refl _)] at hend
          simp only [Nat.sub_self, List.getD_cons_zero, hnew_low, hnew_high] at hend
          rcases hend with hvL | hvH
          · apply step_mem
            rw [if_pos hvL]
            exact mem_set_add.mpr (Or.inr rfl)
          · rw [if_pos hvH]
            exact mem_set_add.mpr (Or.inr rfl)
  · intro e he
    simp only [List.length_append, List.length_cons, List.length_nil] at he
    have hsplit : e < g.edges.length ∨ e = g.edges.length := by omega
    rcases hsplit with he' | rfl
    · rw [List.getD_append _ _ _ _ he']
      have := hwf.edge_nodes e he'
      exact this
    · rw [List.getD_append_right _ _ _ _ (Nat.le_refl _)]
      simp only [Nat.sub_self, List.getD_cons_zero, hnew_low, hnew_high]
      exact ⟨hLlt, hHlt⟩
  · intro a i h
    simp only [alist_lookup] at h
    by_cases ha : pool.address = a
    · rw [if_pos ha, Option.some.injEq] at h
      simp only [List.length_append, List.length_cons, List.length_nil]
      omega
    · rw [if_neg ha] at h
      have := hwf.edge_map_range a i h
      simp only [List.length_append, List.length_cons, List.length_nil]
      omega
  · exact hwf.wsol_ok

theorem wf_insert_pool (g : Graph) (pool : PoolInfo) (hwf : GraphWF g) :
    GraphWF (g.insert_pool pool) := by
  have hwf1 := wf_insert_node g pool.token_a hwf
  have hwf2 := wf_insert_node (g.insert_node pool.token_a).2 pool.token_b hwf1
  have h0 : (g.insert_node pool.token_a).1 <
      ((g.insert_node pool.token_a).2.insert_node pool.token_b).2.nodes.length :=
    Nat.lt_of_lt_of_le (insert_node_fst_lt g pool.token_a hwf)
      (insert_node_nodes_mono _ pool.token_b)
  have h1 : ((g.insert_node pool.token_a).2.insert_node pool.token_b).1 <
      ((g.insert_node pool.token_a).2.insert_node pool.token_b).2.nodes.length :=
    insert_node_fst_lt _ pool.token_b hwf1
  exact wf_insert_edge _ pool _ _ hwf2 h0 h1

theorem wf_insert_pools :
    ∀ (ps : List PoolInfo) (g : Graph), GraphWF g → GraphWF (Graph.insert_pools g ps)
  | [], _, hwf => hwf
  | p :: rest, g, hwf =>
    wf_insert_pools rest (g.insert_pool p) (wf_insert_pool g p hwf)

/-! ### C6: edge orientation invariants -/

/-- Every edge's endpoints are strictly ordered. -/
def EdgesOrdered (g : Graph) : Prop :=
  ∀ e, e < g.edges.length →
    (g.edges.getD e dummy_edge).node_lowest < (g.edges.getD e dummy_edge).node_highest

theorem insert_pool_eq (g : Graph) (pool : PoolInfo) :
    g.insert_pool pool =
      (((g.insert_node pool.token_a).2.insert_node pool.token_b).2.insert_edge pool
        (g.insert_node pool.token_a).1
        ((g.insert_node pool.token_a).2.insert_node pool.token_b).1).2 := rfl

theorem insert_pool_node_ids_ne (g : Graph) (pool : PoolInfo) (hwf : GraphWF g)
    (hab : pool.token_a.address ≠ pool.token_b.address) :
    (g.insert_node pool.token_a).1 ≠
      ((g.insert_node pool.token_a).2.insert_node pool.token_b).1 := by
  have hwf1 : GraphWF (g.insert_node pool.token_a).2 := wf_insert_node g pool.token_a hwf
  have hself : alist_lookup (g.insert_node pool.token_a).2.address_to_node
      pool.token_a.address = some (g.insert_node pool.token_a).1 :=
    insert_node_lookup_self g pool.token_a
  cases hl : alist_lookup (g.insert_node pool.token_a).2.address_to_node
      pool.token_b.address with
  | some j =>
    have h1 : ((g.insert_node pool.token_a).2.insert_node pool.token_b).1 = j :=
      insert_node_fst_some _ pool.token_b j hl
    rw [h1]
    intro hcontra
    have ha := hwf1.node_map_addr _ _ hself
    have hb := hwf1.node_map_addr _ _ hl
    rw [hcontra] at ha
    exact hab (ha.symm.trans hb)
  | none =>
    have h1 : ((g.insert_node pool.token_a).2.insert_node pool.token_b).1 =
        (g.insert_node pool.token_a).2.nodes.length :=
      insert_node_fst_none _ pool.token_b hl
    rw [h1]
    exact Nat.ne_of_lt (insert_node_fst_lt g pool.token_a hwf)

theorem ordered_insert_pool (g : Graph) (pool : PoolInfo) (hwf : GraphWF g)
    (hord : EdgesOrdered g) (hab : pool.token_a.address ≠ pool.token_b.address) :
    EdgesOrdered (g.insert_pool pool) := by
  have hne := insert_pool_node_ids_ne g pool hwf hab
  have hE : ((g.insert_node pool.token_a).2.insert_node pool.token_b).2.edges = g.edges := by
    rw [insert_node_edges, insert_node_edges]
  intro e he
  rw [insert_pool_eq, insert_edge_eq] at he ⊢
  dsimp only at he ⊢
  rw [hE] at he ⊢
  simp only [List.length_append, List.length_cons, List.length_nil] at he
  have hsplit : e < g.edges.length ∨ e = g.edges.length := by omega
  rcases hsplit with he' | rfl
  · rw [List.getD_append _ _ _ _ he']
    exact hord e he'
  · rw [List.getD_append_right _ _ _ _ (Nat.le_refl _)]
    simp only [Nat.sub_self, List.getD_cons_zero, mk_edge]
    by_cases hc : (g.insert_node pool.token_a).1 <
        ((g.insert_node pool.token_a).2.insert_node pool.token_b).1
    · simp only [if_pos hc]
      exact hc
    · have hlt : ((g.insert_node pool.token_a).2.insert_node pool.token_b).1 <
          (g.insert_node pool.token_a).1 := by omega
      simp only [if_neg hc]
      exact hlt

theorem ordered_insert_pools :
    ∀ (ps : List PoolInfo) (g : Graph), GraphWF g → EdgesOrdered g →
      (∀ p ∈ ps, p.token_a.address ≠ p.token_b.address) →
      EdgesOrdered (Graph.insert_pools g ps)
  | [], _, _, hord, _ => hord
  | p :: rest, g, hwf, hord, hps =>
    ordered_insert_pools rest (g.insert_pool p) (wf_insert_pool g p hwf)
      (ordered_insert_pool g p hwf hord (hps p (List.mem_cons_self _ _)))
      (fun q hq => hps q (List.mem_cons_of_mem _ hq))

/-- C6 amended.  For graphs built by `insert_pool` from pools whose two token
addresses are distinct (for a pool whose token addresses coincide the
invariant fails, see the counterexample): every edge has
`node_lowest < node_highest`, both endpoints in range, and belongs to the
adjacency set of exactly its two endpoints; and the edge created for a pool
records `reversed = (a_id > b_id)` together with the sorted endpoints, where
`a_id`, `b_id` are the node ids returned for `token_a` and `token_b`. -/
theorem c6_edge_invariants :
    (∀ ps : List PoolInfo, (∀ p ∈ ps, p.token_a.address ≠ p.token_b.address) →
      ∀ e, e < (Graph.insert_pools Graph.default ps).edges.length →
        ((Graph.insert_pools Graph.default ps).edges.getD e dummy_edge).node_lowest <
          ((Graph.insert_pools Graph.default ps).edges.getD e dummy_edge).node_highest ∧
        ((Graph.insert_pools Graph.default ps).edges.getD e dummy_edge).node_lowest <
          (Graph.insert_pools Graph.default ps).nodes.length ∧
        ((Graph.insert_pools Graph.default ps).edges.getD e dummy_edge).node_highest <
          (Graph.insert_pools Graph.default ps).nodes.length ∧
        (∀ v l, alist_lookup (Graph.insert_pools Graph.default ps).adjacency v = some l →
          (e ∈ l ↔
            (v = ((Graph.insert_pools Graph.default ps).edges.getD e dummy_edge).node_lowest ∨
             v = ((Graph.insert_pools Graph.default ps).edges.getD e
                    dummy_edge).node_highest)))) ∧
    (∀ (g : Graph) (pool : PoolInfo), GraphWF g →
      pool.token_a.address ≠ pool.token_b.address →
      ((g.insert_pool pool).edges.getD g.edges.length dummy_edge).reversed =
        decide (((g.insert_node pool.token_a).2.insert_node pool.token_b).1 <
          (g.insert_node pool.token_a).1) ∧
      ((g.insert_pool pool).edges.getD g.edges.length dummy_edge).node_lowest =
        min (g.insert_node pool.token_a).1
          ((g.insert_node pool.token_a).2.insert_node pool.token_b).1 ∧
      ((g.insert_pool pool).edges.getD g.edges.length dummy_edge).node_highest =
        max (g.insert_node pool.token_a).1
          ((g.insert_node pool.token_a).2.insert_node pool.token_b).1) := by
  constructor
  · intro ps hps e he
    have hwf := wf_insert_pools ps Graph.default graphWF_default
    have hord := ordered_insert_pools ps Graph.default graphWF_default
      (fun e he => by simp [Graph.default] at he) hps
    refine ⟨hord e he, (hwf.edge_nodes e he).1, (hwf.edge_nodes e he).2, ?_⟩
    intro v l hl
    constructor
    · intro hmem
      exact ((hwf.adj_mem v l hl e).mp hmem).2
    · intro hv
      exact (hwf.adj_mem v l hl e).mpr ⟨he, hv⟩
  · intro g pool hwf hab
    have hne := insert_pool_node_ids_ne g pool hwf hab
    have hE : ((g.insert_node pool.token_a).2.insert_node pool.token_b).2.edges =
        g.edges := by
      rw [insert_node_edges, insert_node_edges]
    rw [insert_pool_eq, insert_edge_eq]
    dsimp only
    rw [hE, List.getD_append_right _ _ _ _ (Nat.le_refl _)]
    simp only [Nat.sub_self, List.getD_cons_zero, mk_edge]
    by_cases hc : (g.insert_node pool.token_a).1 <
        ((g.insert_node pool.token_a).2.insert_node pool.token_b).1
    · refine ⟨?_, ?_, ?_⟩
      · simp only [if_pos hc]
        have : ¬ ((g.insert_node pool.token_a).2.insert_node pool.token_b).1 <
            (g.insert_node pool.token_a).1 := by omega
        simp [this]
      · simp only [if_pos hc]
        omega
      · simp only [if_pos hc]
        omega
    · have hlt : ((g.insert_node pool.token_a).2.insert_node pool.token_b).1 <
          (g.insert_node pool.token_a).1 := by omega
      refine ⟨?_, ?_, ?_⟩
      · simp only [if_neg hc]
        simp [hlt]
      · simp only [if_neg hc]
        omega
      · simp only [if_neg hc]
        omega

/-- Witness for C6: the first triangle edge is strictly ordered, and the edge
created for the pool X-WSOL on the default graph is not reversed. -/
theorem c6_edge_invariants_witness :
    ((Graph.insert_pools Graph.default
        [mk_pool 100 token_x token_wsol, mk_pool 101 token_x token_y,
         mk_pool 102 token_y token_wsol]).edges.getD 0 dummy_edge).node_lowest <
      ((Graph.insert_pools Graph.default
        [mk_pool 100 token_x token_wsol, mk_pool 101 token_x token_y,
         mk_pool 102 token_y token_wsol]).edges.getD 0 dummy_edge).node_highest ∧
    ((Graph.default.insert_pool (mk_pool 100 token_x token_wsol)).edges.getD 0
        dummy_edge).reversed =
      decide (((Graph.default.insert_node token_x).2.insert_node token_wsol).1 <
        (Graph.default.insert_node token_x).1) :=
  ⟨(c6_edge_invariants.1
      [mk_pool 100 token_x token_wsol, mk_pool 101 token_x token_y,
       mk_pool 102 token_y token_wsol] (by decide) 0 (by decide)).1,
   (c6_edge_invariants.2 Graph.default (mk_pool 100 token_x token_wsol) graphWF_default
      (by decide)).1⟩

/-! ### C10: the base-token precondition of build_cycles -/

theorem insert_edge_nodes (g : Graph) (pool : PoolInfo) (n0 n1 : Nat) :
    (g.insert_edge pool n0 n1).2.nodes = g.nodes := by
  rw [insert_edge_eq]

theorem insert_edge_wsol_node (g : Graph) (pool : PoolInfo) (n0 n1 : Nat) :
    (g.insert_edge pool n0 n1).2.wsol_node = g.wsol_node := by
  rw [insert_edge_eq]

theorem insert_edge_wsol_address (g : Graph) (pool : PoolInfo) (n0 n1 : Nat) :
    (g.insert_edge pool n0 n1).2.wsol_address = g.wsol_address := by
  rw [insert_edge_eq]

theorem insert_node_wsol_address (g : Graph) (t : TokenInfo) :
    (g.insert_node t).2.wsol_address = g.wsol_address := by
  cases h : alist_lookup g.address_to_node t.address with
  | some i => rw [insert_node_snd_some g t i h]
  | none => rw [insert_node_snd_none g t h]

theorem insert_node_wsol_of_ne (g : Graph) (t : TokenInfo)
    (h : t.address ≠ g.wsol_address) :
    (g.insert_node t).2.wsol_node = g.wsol_node := by
  cases hl : alist_lookup g.address_to_node t.address with
  | some i => rw [insert_node_snd_some g t i hl]
  | none =>
    rw [insert_node_snd_none g t hl]
    simp [h]

theorem insert_node_nodes_le (g : Graph) (t : TokenInfo) :
    (g.insert_node t).2.nodes.length ≤ g.nodes.length + 1 := by
  cases h : alist_lookup g.address_to_node t.address with
  | some i =>
    rw [insert_node_snd_some g t i h]
    omega
  | none =>
    rw [insert_node_snd_none g t h]
    simp

theorem insert_pools_wsol_sentinel :
    ∀ (ps : List PoolInfo) (g : Graph), g.wsol_address = WSOL_ADDRESS →
      g.wsol_node = usize_max →
      (∀ p ∈ ps, p.token_a.address ≠ WSOL_ADDRESS ∧ p.token_b.address ≠ WSOL_ADDRESS) →
      (Graph.insert_pools g ps).wsol_node = usize_max ∧
      (Graph.insert_pools g ps).wsol_address = WSOL_ADDRESS
  | [], _, haddr, hnode, _ => ⟨hnode, haddr⟩
  | p :: rest, g, haddr, hnode, hps => by
    have hpa := (hps p (List.mem_cons_self _ _)).1
    have hpb := (hps p (List.mem_cons_self _ _)).2
    have haddr1 := insert_node_wsol_address g p.token_a
    have haddr2 := insert_node_wsol_address (g.insert_node p.token_a).2 p.token_b
    have hstep_addr : (g.insert_pool p).wsol_address = WSOL_ADDRESS := by
      rw [insert_pool_eq, insert_edge_wsol_address, haddr2, haddr1, haddr]
    have hstep_node : (g.insert_pool p).wsol_node = usize_max := by
      rw [insert_pool_eq, insert_edge_wsol_node]
      rw [insert_node_wsol_of_ne _ p.token_b (by rw [haddr1, haddr]; exact hpb)]
      rw [insert_node_wsol_of_ne g p.token_a (by rw [haddr]; exact hpa)]
      exact hnode
    exact insert_pools_wsol_sentinel rest (g.insert_pool p) hstep_addr hstep_node
      (fun q hq => hps q (List.mem_cons_of_mem _ hq))

theorem insert_pool_nodes_le (g : Graph) (p : PoolInfo) :
    (g.insert_pool p).nodes.length ≤ g.nodes.length + 2 := by
  rw [insert_pool_eq, insert_edge_nodes]
  have h1 := insert_node_nodes_le g p.token_a
  have h2 := insert_node_nodes_le (g.insert_node p.token_a).2 p.token_b
  omega

theorem insert_pools_nodes_le :
    ∀ (ps : List PoolInfo) (g : Graph),
      (Graph.insert_pools g ps).nodes.length ≤ g.nodes.length + 2 * ps.length
  | [], _ => Nat.le_refl _
  | p :: rest, g => by
    have h1 := insert_pool_nodes_le g p
    have h2 := insert_pools_nodes_le rest (g.insert_pool p)
    have hstep : Graph.insert_pools g (p :: rest) =
        Graph.insert_pools (g.insert_pool p) rest := rfl
    rw [hstep]
    simp only [List.length_cons]
    omega

theorem get_other_node_some (ed : Edge) (v : Nat)
    (h : v = ed.node_lowest ∨ v = ed.node_highest) :
    ∃ w, ed.get_other_node v = some w ∧ (w = ed.node_lowest ∨ w = ed.node_highest) := by
  by_cases h1 : v = ed.node_lowest
  · exact ⟨ed.node_highest, by simp [Edge.get_other_node, h1], Or.inr rfl⟩
  · have h2 : v = ed.node_highest := h.resolve_left h1
    exact ⟨ed.node_lowest, by simp [Edge.get_other_node, h1, h2], Or.inl rfl⟩

theorem foldlM_option_some {α σ : Type} (f : σ → α → Option σ) :
    ∀ (l : List α), (∀ s (a : α), a ∈ l → ∃ s', f s a = some s') →
      ∀ s, ∃ out, List.foldlM f s l = some out
  | [], _, s => ⟨s, rfl⟩
  | a :: rest, hstep, s => by
    obtain ⟨s', hs'⟩ := hstep s a (List.mem_cons_self _ _)
    obtain ⟨out, hout⟩ := foldlM_option_some f rest
      (fun s a ha => hstep s a (List.mem_cons_of_mem _ ha)) s'
    exact ⟨out, by simp [List.foldlM_cons, hs', hout]⟩

theorem dfs_recursive_some (g : Graph) (hwf : GraphWF g) (start_node max_depth : Nat) :
    ∀ (fuel current : Nat) (visited : List Bool) (path : List Nat)
      (cycles : List (List Nat)),
      current < g.nodes.length → max_depth < path.length + fuel →
      ∃ out,
        g.dfs_recursive start_node max_depth fuel current visited path cycles = some out := by
  intro fuel
  induction fuel with
  | zero =>
    intro current visited path cycles _ hf
    have hg : max_depth ≤ path.length := by omega
    exact ⟨cycles, by simp [Graph.dfs_recursive, hg]⟩
  | succ fuel ih =>
    intro current visited path cycles hc hf
    by_cases hg : max_depth ≤ path.length
    · exact ⟨cycles, by simp [Graph.dfs_recursive, hg]⟩
    · obtain ⟨adj, hadj⟩ := Option.isSome_iff_exists.mp ((hwf.adj_keys current).mpr hc)
      have hfold : ∀ cyc, ∃ out,
          List.foldlM
            (fun cycles edge_index =>
              if visited.getD edge_index false then some cycles
              else
                let edge := g.edges.getD edge_index dummy_edge
                match edge.get_other_node current with
                | none => none
                | some other_node =>
                  let visited' := visited.set edge_index true
                  let path' := path ++ [edge_index]
                  let cycles' :=
                    if other_node = start_node ∧ 2 ≤ path'.length then
                      let canonical := Graph.canonicalize path'
                      let canonical :=
                        match canonical.findIdx?
                            (fun pool_index => g.edge_touches_wsol pool_index) with
                        | some pos => canonical.rotate pos
                        | none => canonical
                      set_insert canonical cycles
                    else cycles
                  g.dfs_recursive start_node max_depth fuel other_node visited' path'
                    cycles')
            cyc adj = some out := by
        apply foldlM_option_some
        intro cyc e he
        by_cases hv : visited.getD e false = true
        · exact ⟨cyc, by simp only [hv, if_true]⟩
        · obtain ⟨helt, hend⟩ := (hwf.adj_mem current adj hadj e).mp he
          obtain ⟨w, hw, hwend⟩ := get_other_node_some (g.edges.getD e dummy_edge) current hend
          have hb := hwf.edge_nodes e helt
          have hwlt : w < g.nodes.length := by
            rcases hwend with rfl | rfl
            · exact hb.1
            · exact hb.2
          have hrec : ∀ cyc2, ∃ out, g.dfs_recursive start_node max_depth fuel w
              (visited.set e true) (path ++ [e]) cyc2 = some out := by
            intro cyc2
            apply ih w (visited.set e true) (path ++ [e]) cyc2 hwlt
            simp only [List.length_append, List.length_cons, List.length_nil]
            omega
          simp only [hv, Bool.false_eq_true, if_false, hw]
          exact hrec _
      obtain ⟨out, hout⟩ := hfold cycles
      refine ⟨out, ?_⟩
      rw [Graph.dfs_recursive]
      rw [if_neg hg]
      rw [hadj]
      exact hout

theorem build_cycles_some (g : Graph) (hwf : GraphWF g) (max_depth : Nat)
    (hstart : g.wsol_node < g.nodes.length) :
    ∃ g', g.build_cycles max_depth = some g' := by
  obtain ⟨out, hout⟩ := dfs_recursive_some g hwf g.wsol_node max_depth (max_depth + 1)
    g.wsol_node (List.replicate g.edges.length false) [] [] hstart
    (by simp only [List.length_nil]; omega)
  refine ⟨{ g with
    all_cycles := out.foldl (fun acc cycle => set_insert (g.check_cycle cycle).2 acc) [] }, ?_⟩
  simp [Graph.build_cycles, hout]

theorem build_cycles_none_of_no_key (g : Graph) (max_depth : Nat) (hD : 1 ≤ max_depth)
    (hkey : alist_lookup g.adjacency g.wsol_node = none) :
    g.build_cycles max_depth = none := by
  have hg : ¬ max_depth ≤ ([] : List Nat).length := by
    simp only [List.length_nil]
    omega
  have hdfs : g.dfs_recursive g.wsol_node max_depth (max_depth + 1) g.wsol_node
      (List.replicate g.edges.length false) [] [] = none := by
    rw [Graph.dfs_recursive, if_neg hg, hkey]
  simp [Graph.build_cycles, hdfs]

/-- C10.  A graph that never encountered the base-token address keeps the
sentinel `usize::MAX` in `wsol_node`, and `build_cycles` then panics for every
positive depth — the DFS indexes the adjacency map at the sentinel, which is
not a key (the size bound `2 * |pools| ≤ usize_max` reflects that a Rust
process cannot hold more than `usize::MAX` nodes).  With the precondition
that the base-token node exists, the adjacency lookups (and endpoint
unwraps) inside `dfs_recursive` never fail and `build_cycles` returns
normally. -/
theorem c10_build_cycles_wsol_precondition :
    (∀ ps : List PoolInfo,
      (∀ p ∈ ps, p.token_a.address ≠ WSOL_ADDRESS ∧ p.token_b.address ≠ WSOL_ADDRESS) →
      2 * ps.length ≤ usize_max →
      (Graph.insert_pools Graph.default ps).wsol_node = usize_max ∧
      (∀ max_depth, 1 ≤ max_depth →
        Graph.build_cycles (Graph.insert_pools Graph.default ps) max_depth = none)) ∧
    (∀ (qs : List PoolInfo) (max_depth : Nat),
      (Graph.insert_pools Graph.default qs).wsol_node <
        (Graph.insert_pools Graph.default qs).nodes.length →
      ∃ g', Graph.build_cycles (Graph.insert_pools Graph.default qs) max_depth = some g') := by
  constructor
  · intro ps hps hsize
    have hW := insert_pools_wsol_sentinel ps Graph.default rfl rfl hps
    refine ⟨hW.1, ?_⟩
    intro D hD
    have hwf := wf_insert_pools ps Graph.default graphWF_default
    have hlen : (Graph.insert_pools Graph.default ps).nodes.length ≤ usize_max := by
      have := insert_pools_nodes_le ps Graph.default
      have hz : Graph.default.nodes.length = 0 := rfl
      omega
    have hkey : alist_lookup (Graph.insert_pools Graph.default ps).adjacency
        (Graph.insert_pools Graph.default ps).wsol_node = none := by
      rw [hW.1]
      apply Option.not_isSome_iff_eq_none.mp
      rw [hwf.adj_keys usize_max]
      omega
    exact build_cycles_none_of_no_key _ D hD hkey
  · intro qs D hstart
    exact build_cycles_some _ (wf_insert_pools qs Graph.default graphWF_default) D hstart

/-- Witness for C10: one WSOL-free pool leaves the sentinel and depth 1
panics; the triangle pools (which contain WSOL) build cycles normally. -/
theorem c10_build_cycles_wsol_precondition_witness :
    (Graph.insert_pools Graph.default [mk_pool 300 token_x token_y]).wsol_node = usize_max ∧
    Graph.build_cycles (Graph.insert_pools Graph.default [mk_pool 300 token_x token_y]) 1 =
      none ∧
    ∃ g', Graph.build_cycles
      (Graph.insert_pools Graph.default
        [mk_pool 100 token_x token_wsol, mk_pool 101 token_x token_y,
         mk_pool 102 token_y token_wsol]) 3 = some g' :=
  ⟨(c10_build_cycles_wsol_precondition.1 [mk_pool 300 token_x token_y] (by decide)
      (by decide)).1,
   (c10_build_cycles_wsol_precondition.1 [mk_pool 300 token_x token_y] (by decide)
      (by decide)).2 1 (by decide),
   c10_build_cycles_wsol_precondition.2
     [mk_pool 100 token_x token_wsol, mk_pool 101 token_x token_y,
      mk_pool 102 token_y token_wsol] 3 (by decide)⟩

end MevBot
